import Mathlib

/-!
Shallow embedding of the spanner-orm core: `spanner_orm/field.py` (the field
type registry and the `Field` column descriptor) and
`spanner_orm/admin/metadata.py` (the `SpannerMetadata` catalog builder).
Python dicts are modelled as insertion-ordered association lists, in-place
object mutation as explicit state threading, and exceptions as `Except`.
-/

namespace SpannerOrm

/-- Errors raised by the embedded code.  The Python code raises
`error.ValidationError` (message text elided here), `KeyError` (from a failed
dict subscript), and an unrecoverable schema-resolution error for an
unmatched wire type string. -/
inductive Err
| validationError
| keyError (key : String)
| schemaError
deriving DecidableEq

/-- Python runtime values, to the granularity the validators inspect them.
In Python `bool` is a subclass of `int`, so `isinstance(v, int)` is true for
both the `bool` and `int` constructors; the individual checks below encode
that.  Payloads irrelevant to every `isinstance` check (float magnitude,
datetime contents) are elided. -/
inductive PyValue
| none
| bool (b : Bool)
| int (n : Int)
| float
| str (s : String)
| list (xs : List PyValue)
| bytes (bs : List Nat)
| datetime

/-- The eight field-type variants declared in `field.py` (each a subclass of
`FieldType`). -/
inductive FieldTypeV
| boolean
| integer
| intArray
| float
| string
| stringArray
| timestamp
| bytesBase64
deriving DecidableEq, Fintype

/-- The `ALL_TYPES` list of `field.py`, in its declared order. -/
def ALL_TYPES : List FieldTypeV :=
  [.boolean, .integer, .intArray, .float, .string, .stringArray, .timestamp, .bytesBase64]

/-- `<Variant>.ddl()` of each field type. -/
def FieldTypeV.ddl : FieldTypeV → String
| .boolean => "BOOL"
| .integer => "INT64"
| .intArray => "ARRAY<INT64>"
| .float => "FLOAT64"
| .string => "STRING(MAX)"
| .stringArray => "ARRAY<STRING(MAX)>"
| .timestamp => "TIMESTAMP"
| .bytesBase64 => "BYTES(MAX)"

/-- `<Variant>.support_length()` of each field type. -/
def FieldTypeV.support_length : FieldTypeV → Bool
| .string => true
| .stringArray => true
| .bytesBase64 => true
| _ => false

/-- `<Variant>.support_commit_timestamp()` of each field type. -/
def FieldTypeV.support_commit_timestamp : FieldTypeV → Bool
| .timestamp => true
| _ => false

/-- Python `s[0:n] == pat` where `n` is `pat`'s length: a bounded slice
compare (the slice clamps when `s` is shorter than `n`). -/
def pySliceEq (s pat : List Char) : Bool :=
  s.take pat.length == pat

/-- Python `s[-1] == c`.  Indexing raises on the empty string, but every use
in `field.py` is guarded by a prefix test through short-circuiting `and`, so
`s` is nonempty whenever this is evaluated; `getLast?` agrees with the Python
expression on nonempty strings. -/
def pyLastIs (s : List Char) (c : Char) : Bool :=
  s.getLast? == some c

/-- Python `s[-2:] == pat`: the two-element tail slice (clamping to the whole
list when shorter, exactly as `List.drop` with truncated subtraction does). -/
def pyLastTwoEq (s pat : List Char) : Bool :=
  s.drop (s.length - 2) == pat

/-- `<Variant>.matches(type)` of each field type, over the characters of the
catalog type string:
`Boolean`: `type == 'BOOL'`; `Integer`: `type == 'INT64'`;
`IntArray`: `type == 'ARRAY<INT64>'`; `Float`: `type == 'FLOAT64'`;
`String`: `type[0:7] == 'STRING(' and type[-1] == ')'`;
`StringArray`: `type[0:13] == 'ARRAY<STRING(' and type[-2:] == ')>'`;
`Timestamp`: `type.startswith('TIMESTAMP')`;
`BytesBase64`: `type[0:6] == 'BYTES(' and type[-1] == ')'`. -/
def FieldTypeV.matches : FieldTypeV → List Char → Bool
| .boolean, s => s == "BOOL".toList
| .integer, s => s == "INT64".toList
| .intArray, s => s == "ARRAY<INT64>".toList
| .float, s => s == "FLOAT64".toList
| .string, s => pySliceEq s "STRING(".toList && pyLastIs s ')'
| .stringArray, s => pySliceEq s "ARRAY<STRING(".toList && pyLastTwoEq s ")>".toList
| .timestamp, s => pySliceEq s "TIMESTAMP".toList
| .bytesBase64, s => pySliceEq s "BYTES(".toList && pyLastIs s ')'

/-- Python `isinstance(v, str)`. -/
def isStr : PyValue → Bool
| .str _ => true
| _ => false

/-- Python `isinstance(v, int)`: true for `bool` values too, since `bool` is
a subclass of `int`. -/
def isIntLike : PyValue → Bool
| .bool _ => true
| .int _ => true
| _ => false

/-- The base64 alphabet used by `base64.b64decode` (`A-Z`, `a-z`, `0-9`,
`+`, `/`), by byte value. -/
def b64Alphabet (c : Nat) : Bool :=
  (65 ≤ c && c ≤ 90) || (97 ≤ c && c ≤ 122) || (48 ≤ c && c ≤ 57) || c == 43 || c == 47

/-- Models the Python standard library call
`base64.b64decode(value, altchars=None, validate=True)` succeeding: every
byte is in the base64 alphabet or is `'='` padding, the length is a multiple
of four, and padding (`'='`, byte 61) appears only as a suffix of length at
most two.  (External library behavior; no claim depends on its internals,
only on the `Field.validate` delegation around it.) -/
def base64Valid (bs : List Nat) : Bool :=
  bs.length % 4 == 0 &&
  (bs.reverse.takeWhile (fun c => c == 61)).length ≤ 2 &&
  (bs.reverse.dropWhile (fun c => c == 61)).all b64Alphabet

/-- `<Variant>.validate_type(value)` of each field type.  Returns `ok` where
the Python method returns `None`, `error` where it raises `ValidationError`.
`Integer`/`IntArray`/`Float` accept `bool` values because Python's
`isinstance(value, int)` does; `Float` uses `isinstance(value, (int, float))`. -/
def FieldTypeV.validate_type : FieldTypeV → PyValue → Except Err Unit
| .boolean, v =>
    match v with
    | .bool _ => .ok ()
    | _ => .error .validationError
| .integer, v =>
    match v with
    | .bool _ => .ok ()
    | .int _ => .ok ()
    | _ => .error .validationError
| .float, v =>
    match v with
    | .bool _ => .ok ()
    | .int _ => .ok ()
    | .float => .ok ()
    | _ => .error .validationError
| .string, v =>
    match v with
    | .str _ => .ok ()
    | _ => .error .validationError
| .stringArray, v =>
    match v with
    | .list xs => if xs.all isStr then .ok () else .error .validationError
    | _ => .error .validationError
| .intArray, v =>
    match v with
    | .list xs => if xs.all isIntLike then .ok () else .error .validationError
    | _ => .error .validationError
| .timestamp, v =>
    match v with
    | .datetime => .ok ()
    | _ => .error .validationError
| .bytesBase64, v =>
    match v with
    | .bytes bs => if base64Valid bs then .ok () else .error .validationError
    | _ => .error .validationError

/-- The `Field` object of `field.py`: a column descriptor.  `name` and
`position` start as `None` and are set post-construction by the catalog
builder. -/
structure Field where
  name : Option String
  type : FieldTypeV
  nullable : Bool
  primary_key : Bool
  length : Int
  allow_commit_timestamp : Bool
  position : Option Int
deriving DecidableEq

/-- `Field.__init__`: records the arguments, then raises `ValidationError`
when `length < 0`; when `not support_length() and length` (truthy, i.e.
nonzero); when `not support_commit_timestamp() and allow_commit_timestamp`. -/
def Field.init (ft : FieldTypeV) (nullable primary_key : Bool) (length : Int)
    (allow_commit_timestamp : Bool) : Except Err Field :=
  if length < 0 then .error .validationError
  else if !ft.support_length && length != 0 then .error .validationError
  else if !ft.support_commit_timestamp && allow_commit_timestamp then .error .validationError
  else .ok
    { name := Option.none, type := ft, nullable := nullable, primary_key := primary_key,
      length := length, allow_commit_timestamp := allow_commit_timestamp,
      position := Option.none }

/-- Python `base.replace('(MAX)', '(<length>)')`: replace every occurrence
(`splitOn`/`intercalate` has exactly replace-all semantics). -/
def replaceMax (base : String) (length : Int) : String :=
  String.intercalate ("(" ++ toString length ++ ")") (base.splitOn "(MAX)")

/-- `Field.ddl()`: starts from the type's DDL, substitutes the length into
the `(MAX)` placeholder when the length is truthy, appends the
commit-timestamp OPTIONS clause when that flag is set, and puts `NOT NULL`
before the options when the field is not nullable. -/
def Field.ddl (f : Field) : String :=
  let base := f.type.ddl
  let base := if f.length != 0 then replaceMax base f.length else base
  let options := if f.allow_commit_timestamp then " OPTIONS (allow_commit_timestamp=true)" else ""
  if f.nullable then base ++ options else base ++ " NOT NULL" ++ options

/-- `Field.validate(value)`: `None` on a non-nullable field raises
`ValidationError`; `None` on a nullable field passes; any other value is
delegated to the type's `validate_type`. -/
def Field.validate (f : Field) (v : PyValue) : Except Err Unit :=
  match v with
  | .none => if f.nullable then .ok () else .error .validationError
  | _ => f.type.validate_type v

/-- The `length`/`allow_commit_timestamp` combinations `Field.__init__`
rejects, as stated by the spec. -/
def fieldInitRejects (ft : FieldTypeV) (length : Int) (act : Bool) : Prop :=
  length < 0 ∨ (0 < length ∧ ft.support_length = false) ∨
    (act = true ∧ ft.support_commit_timestamp = false)

/-- Claim C5: the Field constructor raises ValidationError exactly when
`length < 0`, or `length > 0` with a type variant that does not support
length, or `allow_commit_timestamp` with a type variant that does not
support commit timestamps; in all other cases construction succeeds. -/
theorem field_init_validation_error_iff (ft : FieldTypeV) (nb pk act : Bool) (length : Int) :
    (Field.init ft nb pk length act = Except.error Err.validationError ↔
      fieldInitRejects ft length act) ∧
    ((∃ f, Field.init ft nb pk length act = Except.ok f) ↔ ¬ fieldInitRejects ft length act) := by
  unfold Field.init fieldInitRejects
  split_ifs with h1 h2 h3
  · have hr : length < 0 ∨ (0 < length ∧ ft.support_length = false) ∨
        (act = true ∧ ft.support_commit_timestamp = false) := Or.inl h1
    refine ⟨⟨fun _ => hr, fun _ => rfl⟩, ⟨?_, fun h => absurd hr h⟩⟩
    rintro ⟨f, hf⟩
    cases hf
  · simp only [Bool.and_eq_true, Bool.not_eq_true', bne_iff_ne, ne_eq] at h2
    have hr : length < 0 ∨ (0 < length ∧ ft.support_length = false) ∨
        (act = true ∧ ft.support_commit_timestamp = false) :=
      Or.inr (Or.inl ⟨by omega, h2.1⟩)
    refine ⟨⟨fun _ => hr, fun _ => rfl⟩, ⟨?_, fun h => absurd hr h⟩⟩
    rintro ⟨f, hf⟩
    cases hf
  · simp only [Bool.and_eq_true, Bool.not_eq_true'] at h3
    have hr : length < 0 ∨ (0 < length ∧ ft.support_length = false) ∨
        (act = true ∧ ft.support_commit_timestamp = false) :=
      Or.inr (Or.inr ⟨h3.2, h3.1⟩)
    refine ⟨⟨fun _ => hr, fun _ => rfl⟩, ⟨?_, fun h => absurd hr h⟩⟩
    rintro ⟨f, hf⟩
    cases hf
  · simp only [Bool.and_eq_true, Bool.not_eq_true', bne_iff_ne, ne_eq, not_and,
      not_not] at h2 h3
    have hnr : ¬(length < 0 ∨ (0 < length ∧ ft.support_length = false) ∨
        (act = true ∧ ft.support_commit_timestamp = false)) := by
      rintro (h | ⟨hpos, hsl⟩ | ⟨hact, hsct⟩)
      · exact h1 h
      · have := h2 hsl
        omega
      · have := h3 hsct
        simp [hact] at this
    refine ⟨⟨?_, fun h => absurd h hnr⟩, ⟨fun _ => hnr, fun _ => ⟨_, rfl⟩⟩⟩
    intro h
    cases h

/-- Claim C6: `validate(None)` raises ValidationError exactly when the field
is non-nullable, and a present value is validated by delegating to the
type's `validate_type` (never accepted by default). -/
theorem field_validate_delegates (f : Field) (v : PyValue) :
    (v = PyValue.none →
      (f.validate v = Except.error Err.validationError ↔ f.nullable = false)) ∧
    (v ≠ PyValue.none → f.validate v = f.type.validate_type v) := by
  constructor
  · rintro rfl
    unfold Field.validate
    cases hn : f.nullable <;> simp
  · intro hv
    unfold Field.validate
    cases v <;> first | exact absurd rfl hv | rfl

/-- Witness for C6 at a concrete non-nullable String field and `None`. -/
theorem field_validate_delegates_witness :
    ({ name := Option.none, type := .string, nullable := false, primary_key := false,
       length := 0, allow_commit_timestamp := false, position := Option.none } : Field).validate
        PyValue.none = Except.error Err.validationError ↔
      ({ name := Option.none, type := .string, nullable := false, primary_key := false,
         length := 0, allow_commit_timestamp := false, position := Option.none } : Field).nullable
        = false :=
  (field_validate_delegates _ PyValue.none).1 rfl

/-- Claim C7: `Field(Timestamp, allow_commit_timestamp=True).ddl()` is
exactly `TIMESTAMP OPTIONS (allow_commit_timestamp=true)` when nullable and
`TIMESTAMP NOT NULL OPTIONS (allow_commit_timestamp=true)` when not; the
options clause follows the `NOT NULL` keyword. -/
theorem timestamp_commit_option_ddl :
    Except.map Field.ddl (Field.init .timestamp true false 0 true) =
      Except.ok "TIMESTAMP OPTIONS (allow_commit_timestamp=true)" ∧
    Except.map Field.ddl (Field.init .timestamp false false 0 true) =
      Except.ok "TIMESTAMP NOT NULL OPTIONS (allow_commit_timestamp=true)" := by
  constructor <;> rfl

/-- Claim C10: Float's validator accepts every int (and bool), Integer's
validator accepts both bool values, and a nullable Float field validates the
int `42`. -/
theorem float_int_validators_loose :
    (∀ n : Int, FieldTypeV.float.validate_type (PyValue.int n) = Except.ok ()) ∧
    (∀ b : Bool, FieldTypeV.float.validate_type (PyValue.bool b) = Except.ok () ∧
      FieldTypeV.integer.validate_type (PyValue.bool b) = Except.ok ()) ∧
    (Field.init .float true false 0 false).bind (fun f => f.validate (PyValue.int 42)) =
      Except.ok () := by
  refine ⟨fun n => rfl, fun b => ⟨rfl, rfl⟩, rfl⟩

/-! ## Python dicts as insertion-ordered association lists

A Python `dict` keeps insertion order; assigning to an existing key replaces
its value in place, assigning a fresh key appends.  A
`collections.defaultdict` additionally inserts the default on a missing
subscript read. -/

/-- A Python dict with string keys. -/
abbrev Dict (α : Type) : Type := List (String × α)

/-- Python `d[k]` as an option (`None` instead of `KeyError`). -/
def dictLookup {α : Type} : Dict α → String → Option α
| [], _ => Option.none
| (k', v) :: rest, k => if k' = k then some v else dictLookup rest k

/-- Python `d[k] = v`: replace in place when present, append when fresh. -/
def dictInsert {α : Type} : Dict α → String → α → Dict α
| [], k, v => [(k, v)]
| (k', v') :: rest, k, v =>
    if k' = k then (k, v) :: rest else (k', v') :: dictInsert rest k v

/-- A `defaultdict` subscript read: returns the stored value, or inserts and
returns the default.  The second component is the dict after the read. -/
def dictDefaultGet {α : Type} (d : Dict α) (k : String) (dflt : α) : α × Dict α :=
  match dictLookup d k with
  | some v => (v, d)
  | Option.none => (dflt, d ++ [(k, dflt)])

/-- Nested `defaultdict(dict)` assignment `d[k1][k2] = v`. -/
def dictInsert2 {α : Type} (d : Dict (Dict α)) (k1 k2 : String) (v : α) : Dict (Dict α) :=
  let p := dictDefaultGet d k1 []
  dictInsert p.2 k1 (dictInsert p.1 k2 v)

/-- Nested lookup `d[k1][k2]` as an option. -/
def dictLookup2 {α : Type} (d : Dict (Dict α)) (k1 k2 : String) : Option α :=
  (dictLookup d k1).bind (fun inner => dictLookup inner k2)

/-- A Python dict keyed by `(table_name, index_name)` pairs, with
`defaultdict(list)` append semantics. -/
abbrev PDict : Type := List ((String × String) × List String)

/-- `defaultdict(list)` read `d[k]` (without recording the insertion: every
use below is immediately followed by an append or is a pure read whose
inserted `[]` is indistinguishable from a missing key by later reads). -/
def pdictGetD : PDict → String × String → List String
| [], _ => []
| e :: rest, k => if e.1 = k then e.2 else pdictGetD rest k

/-- `d[k].append(v)` on a `defaultdict(list)`. -/
def pdictAppend : PDict → String × String → String → PDict
| [], k, v => [(k, [v])]
| e :: rest, k, v =>
    if e.1 = k then (e.1, e.2 ++ [v]) :: rest else e :: pdictAppend rest k v

/-! ## Catalog rows (the row-fetch collaborator's result sets) -/

/-- A row of the column-schema query in `SpannerMetadata.tables`:
`table_name`, `column_name`, `ordinal_position`, the declared wire type
string, and the nullability flag.  The row helpers `field_type()` and
`nullable()` live outside `src/`; per the spec, `field_type()` resolves the
declared type string through the registry and `nullable()` reports the
declared nullability. -/
structure ColumnRow where
  table_name : String
  column_name : String
  ordinal_position : Int
  spanner_type : String
  is_nullable : Bool
deriving DecidableEq

/-- A row of the table-schema query: `table_name` and the optional
`parent_table_name` of an interleaved table. -/
structure TableRow where
  table_name : String
  parent_table_name : Option String
deriving DecidableEq

/-- A row of the index-column query in `SpannerMetadata.indexes`: the
`ordinal_position` is `NULL` (`none`) for a storing column. -/
structure IndexColumnRow where
  table_name : String
  index_name : String
  column_name : String
  ordinal_position : Option Int
deriving DecidableEq

/-- A row of the index-schema query. -/
structure IndexRow where
  table_name : String
  index_name : String
  parent_table_name : Option String
  is_null_filtered : Bool
  is_unique : Bool
deriving DecidableEq

/-- The external row-fetch collaborator's data: the four result sets the
builder queries, each in its fetch order.  `index_column_rows` is the result
of a query ordered ascending by `ordinal_position`. -/
structure Database where
  column_rows : List ColumnRow
  table_rows : List TableRow
  index_column_rows : List IndexColumnRow
  index_rows : List IndexRow
deriving DecidableEq

/-- Modelled from the spec: the `Index` entity of `spanner_orm/index.py`
(not under `src/`) — a structural container with ordered key `columns`,
`storing_columns`, uniqueness/null-filtering flags and an optional
interleave `parent`, exactly as constructed by `SpannerMetadata.indexes`. -/
structure Index where
  columns : List String
  name : String
  parent : Option String
  null_filtered : Bool
  unique : Bool
  storing_columns : List String
deriving DecidableEq

/-- Modelled from the spec: `index.Index.PRIMARY_INDEX`, the reserved
sentinel index name whose key columns are the table's primary key.  Claims
use it only as an abstract constant. -/
def Index.PRIMARY_INDEX : String := "PRIMARY_INDEX"

/-- The per-table aggregate built by `SpannerMetadata.tables`: the Python
dict `{'parent_table': ..., 'fields': ...}`. -/
structure TableData where
  parent_table : Option String
  fields : Dict Field
deriving DecidableEq

/-- The `interleaved` attribute of a model's metadata: `None`, the raw
parent-table name string from pass 1, or (after pass 2) a direct reference
to the parent model.  Models are registered one per table name, so the
registry key is a faithful stand-in for Python object identity of the
referenced model class. -/
inductive Interleaved
| none
| name (s : String)
| ref (table : String)
deriving DecidableEq

/-- Modelled from the spec: the model descriptor (`model.Metadata` plus the
dynamically created model class, neither under `src/`) holding the table
name, its field map, its interleave reference and its index map, as filled
in by `SpannerMetadata.models`.  The `model_class` back-reference and the
synthesized class name are elided; `finalize()` is modelled as the identity
(the spec says it locks the descriptor and may run consistency checks). -/
structure ModelMeta where
  table : String
  fields : Dict Field
  interleaved : Interleaved
  indexes : Dict Index
deriving DecidableEq

/-- Modelled from the spec: `ColumnSchema.field_type()` — resolve the
declared type string by iterating `ALL_TYPES` in declared order and taking
the first variant whose `matches` accepts it; no match is an unrecoverable
schema error. -/
def findMatch (ts : String) : Except Err FieldTypeV :=
  match ALL_TYPES.find? (fun v => FieldTypeV.matches v ts.toList) with
  | some v => .ok v
  | Option.none => .error .schemaError

/-- The column-row loop of `SpannerMetadata.tables`: build each `Field` from
the row's resolved type and nullability, set its `name` and `position`, and
store it under `column_data[table_name][column_name]`. -/
def buildColumnData : List ColumnRow → Dict (Dict Field) → Except Err (Dict (Dict Field))
| [], acc => .ok acc
| r :: rest, acc =>
    match findMatch r.spanner_type with
    | .error e => .error e
    | .ok ft =>
      match Field.init ft r.is_nullable false 0 false with
      | .error e => .error e
      | .ok f0 =>
        let f := { f0 with name := some r.column_name, position := some r.ordinal_position }
        buildColumnData rest (dictInsert2 acc r.table_name r.column_name f)

/-- The table-row loop of `SpannerMetadata.tables`: record each table's
parent and its field dict (`column_data[name]`, an empty dict when the table
has no column rows — the `defaultdict` default). -/
def buildTableData (cd : Dict (Dict Field)) : List TableRow → Dict TableData → Dict TableData
| [], acc => acc
| r :: rest, acc =>
    buildTableData cd rest (dictInsert acc r.table_name
      { parent_table := r.parent_table_name,
        fields := (dictLookup cd r.table_name).getD [] })

/-- The body of `SpannerMetadata.tables` (the computation performed when the
cache is cold). -/
def tablesCompute (db : Database) : Except Err (Dict TableData) :=
  match buildColumnData db.column_rows [] with
  | .error e => .error e
  | .ok cd => .ok (buildTableData cd db.table_rows [])

/-- The key `(schema.table_name, schema.index_name)` used by
`SpannerMetadata.indexes`. -/
def rowKey (r : IndexColumnRow) : String × String := (r.table_name, r.index_name)

/-- The index-column loop of `SpannerMetadata.indexes`: a row with a
non-null ordinal position appends its column to `index_columns[key]`, a row
with a null ordinal position appends to `storing_columns[key]`. -/
def splitIndexColumns : List IndexColumnRow → PDict → PDict → PDict × PDict
| [], ic, sc => (ic, sc)
| r :: rest, ic, sc =>
    if r.ordinal_position.isSome then
      splitIndexColumns rest (pdictAppend ic (rowKey r) r.column_name) sc
    else
      splitIndexColumns rest ic (pdictAppend sc (rowKey r) r.column_name)

/-- The `Index` constructed for one index-schema row. -/
def mkIndexRow (ic sc : PDict) (r : IndexRow) : Index :=
  { columns := pdictGetD ic (r.table_name, r.index_name),
    name := r.index_name,
    parent := r.parent_table_name,
    null_filtered := r.is_null_filtered,
    unique := r.is_unique,
    storing_columns := pdictGetD sc (r.table_name, r.index_name) }

/-- The index-schema loop of `SpannerMetadata.indexes`:
`indexes[table][index] = Index(...)` on a `defaultdict(dict)`. -/
def buildIndexes (ic sc : PDict) : List IndexRow → Dict (Dict Index) → Dict (Dict Index)
| [], acc => acc
| r :: rest, acc =>
    buildIndexes ic sc rest (dictInsert2 acc r.table_name r.index_name (mkIndexRow ic sc r))

/-- The body of `SpannerMetadata.indexes` (cache cold).  It cannot fail:
every step is a dict operation. -/
def indexesCompute (db : Database) : Dict (Dict Index) :=
  let p := splitIndexColumns db.index_column_rows [] []
  buildIndexes p.1 p.2 db.index_rows []

/-- The `interleaved` value recorded in pass 1 from the table's
`parent_table` entry (`None` or a name string). -/
def interleavedOfParent : Option String → Interleaved
| Option.none => .none
| some s => .name s

/-- Python `field.name in primary_keys` for the optional `name` of a
`Field` (`None in <set of strings>` is false). -/
def pyNameIn (n : Option String) (cols : List String) : Bool :=
  match n with
  | some s => cols.contains s
  | Option.none => false

/-- The pass-1 field mutation `field._primary_key = field.name in
primary_keys`, applied to every field of a table's field dict (in place, so
also visible through the `tables()` cache). -/
def markPrimaryKeys (fields : Dict Field) (cols : List String) : Dict Field :=
  fields.map (fun kv => (kv.1, { kv.2 with primary_key := pyNameIn kv.2.name cols }))

/-- Pass 1 of `SpannerMetadata.models`.  For each table (in dict order):
look up `indexes[table_name][PRIMARY_INDEX]` (the outer subscript is a
`defaultdict` read, inserting an empty dict for a table with no indexes, so
the inner lookup then raises `KeyError`); mark every field's `primary_key`
by membership in the primary index's columns (mutating the field dict that
the `tables()` cache shares); and register the new model under the table
name.  Returns the (possibly failed) model registry together with the final
states of the shared `tables` and `indexes` dicts. -/
def pass1 : List (String × TableData) → Dict TableData → Dict (Dict Index) → Dict ModelMeta →
    Except Err (Dict ModelMeta) × Dict TableData × Dict (Dict Index)
| [], tbls, idxs, models => (.ok models, tbls, idxs)
| (tname, td) :: rest, tbls, idxs, models =>
    let p := dictDefaultGet idxs tname []
    match dictLookup p.1 Index.PRIMARY_INDEX with
    | Option.none => (.error (.keyError Index.PRIMARY_INDEX), tbls, p.2)
    | some pidx =>
      let newFields := markPrimaryKeys td.fields pidx.columns
      let meta : ModelMeta :=
        { table := tname, fields := newFields,
          interleaved := interleavedOfParent td.parent_table, indexes := p.1 }
      pass1 rest (dictInsert tbls tname { td with fields := newFields }) p.2
        (dictInsert models tname meta)

/-- Pass 2 of `SpannerMetadata.models`: for every model whose `interleaved`
is a truthy string (Python: non-empty), replace it by a reference to the
registered parent model (`KeyError` when the parent is not registered), then
finalize (a no-op here).  Iterates the registry entries as they stood after
pass 1 while threading the dict being updated, mirroring in-place mutation
of the model objects. -/
def pass2 : List (String × ModelMeta) → Dict ModelMeta → Except Err (Dict ModelMeta)
| [], models => .ok models
| (tname, meta) :: rest, models =>
    match meta.interleaved with
    | .name s =>
        if s = "" then pass2 rest models
        else
          match dictLookup models s with
          | Option.none => .error (.keyError s)
          | some _ => pass2 rest (dictInsert models tname { meta with interleaved := .ref s })
    | _ => pass2 rest models

/-- The body of `SpannerMetadata.models` once `tables()` and `indexes()`
have produced their dicts: pass 1 over all tables, then pass 2 over the
complete registry.  Also returns the final states of the `tables` and
`indexes` dicts, which the passes mutate through sharing. -/
def modelsCompute (tbls : Dict TableData) (idxs : Dict (Dict Index)) :
    Except Err (Dict ModelMeta) × Dict TableData × Dict (Dict Index) :=
  let r := pass1 tbls tbls idxs []
  match r.1 with
  | .error e => (.error e, r.2)
  | .ok m1 =>
    match pass2 m1 m1 with
    | .error e => (.error e, r.2)
    | .ok m => (.ok m, r.2)

/-! ## The process-wide cached accessors -/

/-- The class-level cache slots of `SpannerMetadata`. -/
structure MetaState where
  modelsCache : Option (Dict ModelMeta)
  tablesCache : Option (Dict TableData)
  indexesCache : Option (Dict (Dict Index))
deriving DecidableEq

/-- The empty cache state at process start. -/
def initState : MetaState :=
  { modelsCache := Option.none, tablesCache := Option.none, indexesCache := Option.none }

/-- `SpannerMetadata.tables()`: return the cache when warm; otherwise run the
two metadata queries and the build, caching only on success.  The third
component counts the queries issued against the row-fetch collaborator. -/
def tablesAcc (db : Database) (s : MetaState) :
    Except Err (Dict TableData) × MetaState × Nat :=
  match s.tablesCache with
  | some t => (.ok t, s, 0)
  | Option.none =>
    match tablesCompute db with
    | .error e => (.error e, s, 2)
    | .ok t => (.ok t, { s with tablesCache := some t }, 2)

/-- `SpannerMetadata.indexes()`: return the cache when warm; otherwise run
the two metadata queries and the (infallible) build, caching the result. -/
def indexesAcc (db : Database) (s : MetaState) :
    Except Err (Dict (Dict Index)) × MetaState × Nat :=
  match s.indexesCache with
  | some i => (.ok i, s, 0)
  | Option.none =>
    (.ok (indexesCompute db), { s with indexesCache := some (indexesCompute db) }, 2)

/-- `SpannerMetadata.models()`: return the cache when warm; otherwise obtain
`tables()` and `indexes()` (through their own caches), run the two-pass
build, and cache only on success.  The `tables`/`indexes` dicts the build
mutates in place are the cached objects, so their final states are written
back into the caches unconditionally. -/
def modelsAcc (db : Database) (s : MetaState) :
    Except Err (Dict ModelMeta) × MetaState × Nat :=
  match s.modelsCache with
  | some m => (.ok m, s, 0)
  | Option.none =>
    let rt := tablesAcc db s
    match rt.1 with
    | .error e => (.error e, rt.2.1, rt.2.2)
    | .ok tbls =>
      let ri := indexesAcc db rt.2.1
      match ri.1 with
      | .error e => (.error e, ri.2.1, rt.2.2 + ri.2.2)
      | .ok idxs =>
        let rm := modelsCompute tbls idxs
        let s3 : MetaState :=
          { ri.2.1 with tablesCache := some rm.2.1, indexesCache := some rm.2.2 }
        match rm.1 with
        | .error e => (.error e, s3, rt.2.2 + ri.2.2)
        | .ok m => (.ok m, { s3 with modelsCache := some m }, rt.2.2 + ri.2.2)

/-! ## Claim C8: the eight matchers are pairwise disjoint -/

/-- The characteristic prefix each variant's `matches` forces on the type
string: the whole string for the four exact matchers, the tested slice for
the four pattern matchers. -/
def pfx : FieldTypeV → List Char
| .boolean => "BOOL".toList
| .integer => "INT64".toList
| .intArray => "ARRAY<INT64>".toList
| .float => "FLOAT64".toList
| .string => "STRING(".toList
| .stringArray => "ARRAY<STRING(".toList
| .timestamp => "TIMESTAMP".toList
| .bytesBase64 => "BYTES(".toList

/-- A string accepted by a variant's `matches` starts with that variant's
characteristic prefix. -/
theorem matches_take (v : FieldTypeV) (s : List Char) (h : v.matches s = true) :
    s.take (pfx v).length = pfx v := by
  cases v <;>
    simp only [FieldTypeV.matches, pySliceEq, Bool.and_eq_true, beq_iff_eq] at h <;>
    first
    | (subst h; exact List.take_length _)
    | exact h.1
    | exact h

/-- No characteristic prefix is a prefix of another variant's characteristic
prefix: checked over all 64 pairs. -/
theorem pfx_no_embed (v1 v2 : FieldTypeV) (h : (pfx v1).length ≤ (pfx v2).length)
    (he : (pfx v2).take (pfx v1).length = pfx v1) : v1 = v2 := by
  revert h he
  revert v1 v2
  decide

/-- Claim C8: for every type string, at most one of the eight built-in field
type variants matches it, so first-match resolution over `ALL_TYPES` is
order-independent for the built-in variants. -/
theorem matches_at_most_one_variant (s : List Char) (v1 v2 : FieldTypeV)
    (h1 : v1.matches s = true) (h2 : v2.matches s = true) : v1 = v2 := by
  have k1 := matches_take v1 s h1
  have k2 := matches_take v2 s h2
  rcases le_total (pfx v1).length (pfx v2).length with h | h
  · refine pfx_no_embed v1 v2 h ?_
    rw [← k2, List.take_take, Nat.min_eq_left h, k1]
  · refine (pfx_no_embed v2 v1 h ?_).symm
    rw [← k1, List.take_take, Nat.min_eq_left h, k2]

/-- Witness for C8 at the concrete string `INT64`. -/
theorem matches_at_most_one_variant_witness :
    FieldTypeV.integer = FieldTypeV.integer :=
  matches_at_most_one_variant "INT64".toList .integer .integer (by decide) (by decide)

/-! ## Claims C9 and C3: memoization and failure behavior of the caches -/

/-- A warm models cache is returned as-is, with no queries. -/
theorem modelsAcc_warm (db : Database) (s : MetaState) (m : Dict ModelMeta)
    (h : s.modelsCache = some m) : modelsAcc db s = (.ok m, s, 0) := by
  unfold modelsAcc
  rw [h]

/-- A warm tables cache is returned as-is, with no queries. -/
theorem tablesAcc_warm (db : Database) (s : MetaState) (t : Dict TableData)
    (h : s.tablesCache = some t) : tablesAcc db s = (.ok t, s, 0) := by
  unfold tablesAcc
  rw [h]

/-- A warm indexes cache is returned as-is, with no queries. -/
theorem indexesAcc_warm (db : Database) (s : MetaState) (i : Dict (Dict Index))
    (h : s.indexesCache = some i) : indexesAcc db s = (.ok i, s, 0) := by
  unfold indexesAcc
  rw [h]

/-- A successful `models()` from the empty process state leaves all three
caches populated, with the models cache holding the returned mapping. -/
theorem modelsAcc_init_ok (db : Database) (m : Dict ModelMeta) (s' : MetaState) (q : Nat)
    (h : modelsAcc db initState = (.ok m, s', q)) :
    s'.modelsCache = some m ∧ (∃ t, s'.tablesCache = some t) ∧
      (∃ i, s'.indexesCache = some i) := by
  unfold modelsAcc tablesAcc indexesAcc initState at h
  dsimp only at h
  cases htc : tablesCompute db with
  | error e =>
    rw [htc] at h
    cases h
  | ok t =>
    rw [htc] at h
    dsimp only at h
    cases hm : (modelsCompute t (indexesCompute db)).1 with
    | error e =>
      rw [hm] at h
      cases h
    | ok m0 =>
      rw [hm] at h
      cases h
      exact ⟨rfl, ⟨_, rfl⟩, ⟨_, rfl⟩⟩

/-- Claim C9: after a successful first `models()` call (from the empty
process state), a second call returns the identical cached mapping and state
with zero metadata queries, and each of the three accessors likewise issues
zero queries from the resulting state. -/
theorem models_memoized_idempotent (db : Database) (m : Dict ModelMeta)
    (s' : MetaState) (q : Nat) (h : modelsAcc db initState = (.ok m, s', q)) :
    modelsAcc db s' = (.ok m, s', 0) ∧
    (∃ t, tablesAcc db s' = (.ok t, s', 0)) ∧
    (∃ i, indexesAcc db s' = (.ok i, s', 0)) := by
  obtain ⟨hm, ⟨t, ht⟩, ⟨i, hi⟩⟩ := modelsAcc_init_ok db m s' q h
  exact ⟨modelsAcc_warm db s' m hm, ⟨t, tablesAcc_warm db s' t ht⟩,
    ⟨i, indexesAcc_warm db s' i hi⟩⟩

/-- The fully warm cache state reached by running `models()` on the empty
database from the empty process state. -/
def warmEmpty : MetaState :=
  { modelsCache := some [], tablesCache := some [], indexesCache := some [] }

/-- Witness for C9 on the empty database, where all builds succeed. -/
theorem models_memoized_idempotent_witness :
    modelsAcc ⟨[], [], [], []⟩ warmEmpty = (.ok [], warmEmpty, 0) :=
  (models_memoized_idempotent ⟨[], [], [], []⟩ [] warmEmpty 4 rfl).1

/-- A two-table database whose table `B` has no indexes at all: `models()`
fails on `B` with a `KeyError` for the primary index, but only after pass 1
has already mutated the `primary_key` flags of table `A`'s fields in place. -/
def dbNoIdxB : Database :=
  { column_rows :=
      [{ table_name := "A", column_name := "id", ordinal_position := 1,
         spanner_type := "INT64", is_nullable := false },
       { table_name := "B", column_name := "x", ordinal_position := 1,
         spanner_type := "INT64", is_nullable := false }],
    table_rows :=
      [{ table_name := "A", parent_table_name := Option.none },
       { table_name := "B", parent_table_name := Option.none }],
    index_column_rows :=
      [{ table_name := "A", index_name := Index.PRIMARY_INDEX, column_name := "id",
         ordinal_position := some 1 }],
    index_rows :=
      [{ table_name := "A", index_name := Index.PRIMARY_INDEX,
         parent_table_name := Option.none, is_null_filtered := false,
         is_unique := false }] }

/-- The process state after a successful `tables()` call on `dbNoIdxB`: the
tables cache holds `A.id` with `primary_key = false`. -/
def stateAfterTables : MetaState := (tablesAcc dbNoIdxB initState).2.1

/-- The `Field` for column `A.id` as `tables()` builds it: `primary_key`
is false. -/
def fieldIdBefore : Field :=
  { name := some "id", type := .integer, nullable := false, primary_key := false,
    length := 0, allow_commit_timestamp := false, position := some 1 }

/-- The same `Field` after the partial pass 1 of the failing `models()`
call: `primary_key` has been flipped to true in place. -/
def fieldIdAfter : Field :=
  { fieldIdBefore with primary_key := true }

/-- Counterexample to claim C3: from `stateAfterTables`, `models()` fails
(table `B` has no primary index), the models cache stays empty — but the
process-wide cached state is NOT left exactly as it was: the `Field` objects
reachable from the `tables()` cache have been mutated (`A.id.primary_key`
flipped to true by the partial pass 1), so a partially mutated structure is
observable after the failure. -/
theorem models_failure_mutates_tables_cache :
    (modelsAcc dbNoIdxB stateAfterTables).1 =
      Except.error (Err.keyError Index.PRIMARY_INDEX) ∧
    ((modelsAcc dbNoIdxB stateAfterTables).2.1).modelsCache = Option.none ∧
    ¬((modelsAcc dbNoIdxB stateAfterTables).2.1).tablesCache
        = stateAfterTables.tablesCache ∧
    ((dictLookup (stateAfterTables.tablesCache.getD []) "A").map TableData.fields)
        = some [("id", fieldIdBefore)] ∧
    ((dictLookup (((modelsAcc dbNoIdxB stateAfterTables).2.1).tablesCache.getD []) "A").map
          TableData.fields)
        = some [("id", fieldIdAfter)] := by
  exact ⟨rfl, rfl, by decide, rfl, rfl⟩

/-- Claim C3 amended: when a top-level accessor's build fails, that
accessor's own cache slot is left empty, so a later call retries its build
(`tables()` and `indexes()` leave the whole state untouched on failure;
a failed `models()` leaves the models cache empty — but, per the
counterexample, structures reachable from the tables cache may have been
mutated by the partial pass 1). -/
theorem accessor_failure_leaves_cache_cold (db : Database) (s : MetaState) :
    ((tablesAcc db s).1.isOk = false → (tablesAcc db s).2.1 = s) ∧
    ((indexesAcc db s).1.isOk = false → (indexesAcc db s).2.1 = s) ∧
    ((modelsAcc db s).1.isOk = false →
      ((modelsAcc db s).2.1).modelsCache = Option.none) := by
  refine ⟨?_, ?_, ?_⟩
  · unfold tablesAcc
    cases hc : s.tablesCache with
    | some t => intro h; cases h
    | none =>
      cases htc : tablesCompute db with
      | error e => intro _; rfl
      | ok t => intro h; cases h
  · unfold indexesAcc
    cases hc : s.indexesCache with
    | some i => intro h; cases h
    | none => intro h; cases h
  · have htr : (tablesAcc db s).2.1.modelsCache = s.modelsCache := by
      unfold tablesAcc
      cases s.tablesCache with
      | some t => rfl
      | none =>
        cases tablesCompute db with
        | error e => rfl
        | ok t => rfl
    have hir : ∀ s1 : MetaState, (indexesAcc db s1).2.1.modelsCache = s1.modelsCache := by
      intro s1
      unfold indexesAcc
      cases s1.indexesCache with
      | some i => rfl
      | none => rfl
    unfold modelsAcc
    cases hc : s.modelsCache with
    | some m =>
      dsimp only [Except.isOk]
      intro h
      cases h
    | none =>
      dsimp only
      cases htv : (tablesAcc db s).1 with
      | error e =>
        dsimp only [Except.isOk]
        intro _
        rw [htr, hc]
      | ok tbls =>
        dsimp only
        cases hiv : (indexesAcc db (tablesAcc db s).2.1).1 with
        | error e =>
          dsimp only [Except.isOk]
          intro _
          rw [hir, htr, hc]
        | ok idxs =>
          dsimp only
          cases hmv : (modelsCompute tbls idxs).1 with
          | error e =>
            dsimp only [Except.isOk]
            intro _
            rw [hir, htr, hc]
          | ok m =>
            dsimp only [Except.isOk]
            intro h
            cases h

/-- Witness for the amended C3 at the concrete failing `models()` call. -/
theorem accessor_failure_leaves_cache_cold_witness :
    ((modelsAcc dbNoIdxB stateAfterTables).2.1).modelsCache = Option.none :=
  (accessor_failure_leaves_cache_cold dbNoIdxB stateAfterTables).2.2 rfl

/-! ## Dict lemmas -/

/-- Looking up through an insert: the inserted key returns the new value,
any other key is untouched. -/
theorem dictLookup_insert {α : Type} (d : Dict α) (k : String) (v : α) (j : String) :
    dictLookup (dictInsert d k v) j = if k = j then some v else dictLookup d j := by
  induction d with
  | nil =>
    simp only [dictInsert, dictLookup]
  | cons e rest ih =>
    by_cases he : e.1 = k
    · simp only [dictInsert, dictLookup, he, if_pos rfl]
      by_cases hj : k = j <;> simp [dictLookup, hj]
    · simp only [dictInsert, if_neg he, dictLookup]
      by_cases hj : e.1 = j
      · have hkj : ¬ k = j := fun h => he (hj.trans h.symm)
        simp [dictLookup, hj, hkj]
      · simp [dictLookup, hj, ih]

/-- Lookup distributes over list append like Python's first-match search. -/
theorem dictLookup_append {α : Type} (d1 d2 : Dict α) (k : String) :
    dictLookup (d1 ++ d2) k =
      match dictLookup d1 k with
      | some v => some v
      | Option.none => dictLookup d2 k := by
  induction d1 with
  | nil => rfl
  | cons e rest ih =>
    by_cases he : e.1 = k <;> simp [dictLookup, he, ih]

/-- The value component of a `defaultdict` read. -/
theorem dictDefaultGet_fst {α : Type} (d : Dict α) (k : String) (dflt : α) :
    (dictDefaultGet d k dflt).1 = (dictLookup d k).getD dflt := by
  unfold dictDefaultGet
  cases dictLookup d k <;> rfl

/-- Lookup after a `defaultdict` read: the read key now holds its previous
value or the default; other keys are untouched. -/
theorem dictLookup_dget {α : Type} (d : Dict α) (k : String) (dflt : α) (j : String) :
    dictLookup (dictDefaultGet d k dflt).2 j =
      if k = j then some ((dictLookup d k).getD dflt) else dictLookup d j := by
  unfold dictDefaultGet
  cases hk : dictLookup d k with
  | some v =>
    by_cases hj : k = j
    · subst hj
      simp [hk]
    · simp [hj]
  | none =>
    rw [dictLookup_append]
    by_cases hj : k = j
    · subst hj
      simp [hk, dictLookup]
    · cases hd : dictLookup d j <;> simp [hd, dictLookup, hj]

/-- Reading an inner dict through the outer lookup's default. -/
theorem dictLookup_getD_inner {α : Type} (d : Dict (Dict α)) (k1 k2 : String) :
    dictLookup ((dictLookup d k1).getD []) k2 = dictLookup2 d k1 k2 := by
  unfold dictLookup2
  cases dictLookup d k1 <;> rfl

/-- Nested lookup through a nested `defaultdict` assignment. -/
theorem dictLookup2_insert2 {α : Type} (d : Dict (Dict α)) (k1 k2 : String) (v : α)
    (T I : String) :
    dictLookup2 (dictInsert2 d k1 k2 v) T I =
      if k1 = T ∧ k2 = I then some v else dictLookup2 d T I := by
  unfold dictInsert2 dictLookup2
  rw [dictLookup_insert]
  by_cases h1 : k1 = T
  · rw [if_pos h1]
    dsimp only [Option.bind]
    rw [dictLookup_insert, dictDefaultGet_fst]
    by_cases h2 : k2 = I
    · rw [if_pos h2, if_pos ⟨h1, h2⟩]
    · rw [if_neg h2, if_neg (fun h => h2 h.2), dictLookup_getD_inner, ← h1]
      rfl
  · rw [if_neg h1, if_neg (fun h => h1 h.1), dictLookup_dget, if_neg h1]

/-! ## Claim C4: key vs storing columns of an index -/

/-- The filter selecting the key-column rows of index `(T, I)`: rows with a
non-null ordinal position. -/
def isKeyCol (k : String × String) (r : IndexColumnRow) : Bool :=
  rowKey r == k && r.ordinal_position.isSome

/-- The filter selecting the storing-column rows of index `(T, I)`: rows
with a null ordinal position. -/
def isStoringCol (k : String × String) (r : IndexColumnRow) : Bool :=
  rowKey r == k && r.ordinal_position.isNone

/-- Appending to one key of a `defaultdict(list)` appends to its list. -/
theorem pdictGetD_append_self (d : PDict) (k : String × String) (v : String) :
    pdictGetD (pdictAppend d k v) k = pdictGetD d k ++ [v] := by
  induction d with
  | nil => simp [pdictAppend, pdictGetD]
  | cons e rest ih =>
    by_cases he : e.1 = k
    · simp [pdictAppend, pdictGetD, he]
    · simp [pdictAppend, pdictGetD, he, ih]

/-- Appending to one key of a `defaultdict(list)` leaves other keys alone. -/
theorem pdictGetD_append_ne (d : PDict) (k : String × String) (v : String)
    (j : String × String) (hj : k ≠ j) :
    pdictGetD (pdictAppend d k v) j = pdictGetD d j := by
  induction d with
  | nil => simp [pdictAppend, pdictGetD, hj]
  | cons e rest ih =>
    by_cases he : e.1 = k
    · simp [pdictAppend, pdictGetD, he, hj]
    · by_cases hej : e.1 = j
      · have hjk : ¬ j = k := fun h => hj h.symm
        simp [pdictAppend, pdictGetD, he, hej, hjk]
      · simp [pdictAppend, pdictGetD, he, hej, ih]

/-- The `index_columns` side of the index-column loop accumulates, per key,
exactly the column names of that key's non-null-ordinal rows in fetch
order. -/
theorem splitIC_fst (rs : List IndexColumnRow) (a b : PDict) (k : String × String) :
    pdictGetD ((splitIndexColumns rs a b).1) k =
      pdictGetD a k ++ (rs.filter (isKeyCol k)).map IndexColumnRow.column_name := by
  induction rs generalizing a b with
  | nil => simp [splitIndexColumns]
  | cons r rest ih =>
    by_cases ho : r.ordinal_position.isSome
    · rw [splitIndexColumns, if_pos ho, ih]
      by_cases hk : rowKey r = k
      · rw [hk, pdictGetD_append_self]
        simp [List.filter_cons, isKeyCol, hk, ho]
      · rw [pdictGetD_append_ne _ _ _ _ hk]
        simp [List.filter_cons, isKeyCol, hk]
    · rw [splitIndexColumns, if_neg ho, ih]
      simp [List.filter_cons, isKeyCol, ho]

/-- The `storing_columns` side of the index-column loop accumulates, per
key, exactly the column names of that key's null-ordinal rows. -/
theorem splitIC_snd (rs : List IndexColumnRow) (a b : PDict) (k : String × String) :
    pdictGetD ((splitIndexColumns rs a b).2) k =
      pdictGetD b k ++ (rs.filter (isStoringCol k)).map IndexColumnRow.column_name := by
  induction rs generalizing a b with
  | nil => simp [splitIndexColumns]
  | cons r rest ih =>
    by_cases ho : r.ordinal_position.isSome
    · rw [splitIndexColumns, if_pos ho, ih]
      have : r.ordinal_position.isNone = false := by
        cases hop : r.ordinal_position
        · rw [hop] at ho
          cases ho
        · rfl
      simp [List.filter_cons, isStoringCol, this]
    · rw [splitIndexColumns, if_neg ho, ih]
      have hn : r.ordinal_position.isNone = true := by
        cases hop : r.ordinal_position
        · rfl
        · rw [hop] at ho
          exact absurd rfl ho
      by_cases hk : rowKey r = k
      · rw [hk, pdictGetD_append_self]
        simp [List.filter_cons, isStoringCol, hk, hn]
      · rw [pdictGetD_append_ne _ _ _ _ hk]
        simp [List.filter_cons, isStoringCol, hk]

/-- The index-schema loop realizes last-write-wins dict assignment keyed by
`(table, index)`. -/
theorem buildIndexes_lookup (ic sc : PDict) (rs : List IndexRow) (acc : Dict (Dict Index))
    (T I : String) :
    dictLookup2 (buildIndexes ic sc rs acc) T I =
      rs.foldl
        (fun o r => if r.table_name = T ∧ r.index_name = I then some (mkIndexRow ic sc r) else o)
        (dictLookup2 acc T I) := by
  induction rs generalizing acc with
  | nil => rfl
  | cons r rest ih =>
    rw [buildIndexes, ih, List.foldl_cons, dictLookup2_insert2]

/-- A fold that keeps the last matching element: no match leaves the
initial value. -/
theorem foldl_lastMatch_nil {α β : Type} (p : α → Prop) [DecidablePred p] (f : α → β)
    (rs : List α) (init : Option β) (h : ∀ r ∈ rs, ¬ p r) :
    rs.foldl (fun o r => if p r then some (f r) else o) init = init := by
  induction rs generalizing init with
  | nil => rfl
  | cons r rest ih =>
    rw [List.foldl_cons, if_neg (h r (List.mem_cons_self r rest))]
    exact ih init (fun r' hr' => h r' (List.mem_cons_of_mem r hr'))

/-- A fold that keeps the last matching element, when exactly one element
matches. -/
theorem foldl_lastMatch_single {α β : Type} (p : α → Prop) [DecidablePred p] (f : α → β)
    (rs : List α) (row : α) (init : Option β)
    (h : rs.filter (fun r => decide (p r)) = [row]) :
    rs.foldl (fun o r => if p r then some (f r) else o) init = some (f row) := by
  induction rs generalizing init with
  | nil => cases h
  | cons r rest ih =>
    by_cases hp : p r
    · rw [List.filter_cons_of_pos (by simpa using hp)] at h
      injection h with hr hrest
      rw [List.foldl_cons, if_pos hp, hr]
      refine foldl_lastMatch_nil p f rest (some (f row)) ?_
      intro r' hr' hpr'
      have : r' ∈ rest.filter (fun r => decide (p r)) := by
        simp [List.mem_filter, hr', hpr']
      rw [hrest] at this
      cases this
    · rw [List.filter_cons_of_neg (by simpa using hp)] at h
      rw [List.foldl_cons, if_neg hp]
      exact ih init h

/-- Comparison on optional ordinal positions as the ordering metadata query
returns them: ascending with nulls first. -/
def ordinalLeB : Option Int → Option Int → Bool
| Option.none, _ => true
| some _, Option.none => false
| some a, some b => a ≤ b

/-- Claim C4: for index `(T, I)` whose schema row is `row` (its unique one),
given index-column rows fetched in ascending ordinal order, the built
index's `columns` are exactly the column names of the non-null-ordinal rows
for that key — in ascending ordinal order — and its `storing_columns` are
exactly the column names of the null-ordinal rows for that key. -/
theorem indexes_columns_partition_by_ordinal
    (ic : List IndexColumnRow) (irs : List IndexRow) (T I : String) (row : IndexRow)
    (hsorted : ic.Pairwise
      (fun r1 r2 => ordinalLeB r1.ordinal_position r2.ordinal_position = true))
    (hT : row.table_name = T) (hI : row.index_name = I)
    (huniq : irs.filter
        (fun r => decide (r.table_name = T ∧ r.index_name = I)) = [row]) :
    ∃ idx, dictLookup2 (indexesCompute ⟨[], [], ic, irs⟩) T I = some idx ∧
      idx.columns = (ic.filter (isKeyCol (T, I))).map IndexColumnRow.column_name ∧
      ((ic.filter (isKeyCol (T, I))).map IndexColumnRow.ordinal_position).Pairwise
        (fun a b => ordinalLeB a b = true) ∧
      idx.storing_columns = (ic.filter (isStoringCol (T, I))).map IndexColumnRow.column_name := by
  refine ⟨mkIndexRow (splitIndexColumns ic [] []).1 (splitIndexColumns ic [] []).2 row,
    ?_, ?_, ?_, ?_⟩
  · unfold indexesCompute
    rw [buildIndexes_lookup]
    exact foldl_lastMatch_single _ _ irs row _ huniq
  · unfold mkIndexRow
    rw [hT, hI, splitIC_fst]
    rfl
  · refine List.Pairwise.map _ (fun a b h => h) ?_
    exact List.Pairwise.sublist (List.filter_sublist ic) hsorted
  · unfold mkIndexRow
    rw [hT, hI, splitIC_snd]
    rfl

/-- Witness for C4: rows `[c:null, a:1, b:2]` give key columns `[a, b]` and
storing columns `[c]`. -/
theorem indexes_columns_partition_by_ordinal_witness :
    ∃ idx,
      dictLookup2
          (indexesCompute
            ⟨[], [],
              [{ table_name := "T", index_name := "IDX", column_name := "c",
                 ordinal_position := Option.none },
               { table_name := "T", index_name := "IDX", column_name := "a",
                 ordinal_position := some 1 },
               { table_name := "T", index_name := "IDX", column_name := "b",
                 ordinal_position := some 2 }],
              [{ table_name := "T", index_name := "IDX", parent_table_name := Option.none,
                 is_null_filtered := false, is_unique := false }]⟩)
          "T" "IDX" = some idx ∧
      idx.columns = ["a", "b"] ∧ idx.storing_columns = ["c"] := by
  obtain ⟨idx, h1, h2, h3, h4⟩ :=
    indexes_columns_partition_by_ordinal
      [{ table_name := "T", index_name := "IDX", column_name := "c",
         ordinal_position := Option.none },
       { table_name := "T", index_name := "IDX", column_name := "a",
         ordinal_position := some 1 },
       { table_name := "T", index_name := "IDX", column_name := "b",
         ordinal_position := some 2 }]
      [{ table_name := "T", index_name := "IDX", parent_table_name := Option.none,
         is_null_filtered := false, is_unique := false }]
      "T" "IDX"
      { table_name := "T", index_name := "IDX", parent_table_name := Option.none,
        is_null_filtered := false, is_unique := false }
      (by simp [List.pairwise_cons, ordinalLeB]) rfl rfl (by simp)
  exact ⟨idx, h1, by rw [h2]; rfl, by rw [h4]; rfl⟩

/-! ## Claims C1 and C2: the two-pass model build -/

/-- A `defaultdict` read preserves every key that is already present. -/
theorem dictLookup_dget_preserve {α : Type} (d : Dict α) (k : String) (dflt : α)
    (j : String) (v : α) (h : dictLookup d j = some v) :
    dictLookup (dictDefaultGet d k dflt).2 j = some v := by
  rw [dictLookup_dget]
  by_cases hk : k = j
  · subst hk
    rw [if_pos rfl, h]
    rfl
  · rw [if_neg hk]
    exact h

/-- Inserting a fresh key appends it to the key list. -/
theorem dictInsert_keys_fresh {α : Type} (d : Dict α) (k : String) (v : α)
    (h : k ∉ d.map Prod.fst) :
    (dictInsert d k v).map Prod.fst = d.map Prod.fst ++ [k] := by
  induction d with
  | nil => rfl
  | cons e rest ih =>
    have he : ¬ e.1 = k := by
      intro hek
      exact h (by simp [hek])
    simp only [dictInsert, if_neg he, List.map_cons, List.cons_append]
    rw [ih (fun hm => h (by simp [hm]))]

/-- In a dict with distinct keys, every entry is found by lookup. -/
theorem dictLookup_coherent {α : Type} (d : Dict α) (hnd : (d.map Prod.fst).Nodup) :
    ∀ kv ∈ d, dictLookup d kv.1 = some kv.2 := by
  induction d with
  | nil => intro kv h; cases h
  | cons e rest ih =>
    intro kv hkv
    rcases List.mem_cons.1 hkv with h | h
    · subst h
      simp [dictLookup]
    · have hne : ¬ e.1 = kv.1 := by
        intro hek
        have : kv.1 ∈ rest.map Prod.fst := List.mem_map_of_mem Prod.fst h
        rw [← hek] at this
        exact (List.nodup_cons.1 hnd).1 this
      simp only [dictLookup, if_neg hne]
      exact ih (List.nodup_cons.1 hnd).2 kv h

/-- Models already registered under keys outside the remaining work list
survive the rest of pass 1 unchanged. -/
theorem pass1_models_preserved (entries : List (String × TableData)) (tbls : Dict TableData)
    (idxs : Dict (Dict Index)) (models m : Dict ModelMeta) (T : String) (meta : ModelMeta)
    (hok : (pass1 entries tbls idxs models).1 = .ok m)
    (hni : T ∉ entries.map Prod.fst)
    (hl : dictLookup models T = some meta) :
    dictLookup m T = some meta := by
  induction entries generalizing tbls idxs models with
  | nil =>
    simp only [pass1] at hok
    cases hok
    exact hl
  | cons e rest ih =>
    obtain ⟨t0, td0⟩ := e
    simp only [pass1] at hok
    cases hpi : dictLookup (dictDefaultGet idxs t0 []).1 Index.PRIMARY_INDEX with
    | none =>
      rw [hpi] at hok
      cases hok
    | some pidx =>
      rw [hpi] at hok
      dsimp only at hok
      have hT0 : ¬ t0 = T := by
        intro h
        exact hni (by simp [h])
      refine ih _ _ _ hok ?_ ?_
      · intro hm
        exact hni (List.mem_cons_of_mem _ hm)
      · rw [dictLookup_insert, if_neg hT0]
        exact hl

/-- Pass 1 registers, for a table `T` whose primary index is `pidx` under
its per-table index dict `tidx`, exactly the metadata built from `T`'s
table data: fields re-marked by primary-index membership, the raw
interleaved-parent value, and the shared per-table index dict. -/
theorem pass1_lookup_char (entries : List (String × TableData)) (tbls : Dict TableData)
    (idxs : Dict (Dict Index)) (models m : Dict ModelMeta) (T : String) (td : TableData)
    (tidx : Dict Index) (pidx : Index)
    (hmem : (T, td) ∈ entries)
    (hnd : (entries.map Prod.fst).Nodup)
    (hidx : dictLookup idxs T = some tidx)
    (hpidx : dictLookup tidx Index.PRIMARY_INDEX = some pidx)
    (hok : (pass1 entries tbls idxs models).1 = .ok m) :
    dictLookup m T = some
      { table := T, fields := markPrimaryKeys td.fields pidx.columns,
        interleaved := interleavedOfParent td.parent_table, indexes := tidx } := by
  induction entries generalizing tbls idxs models with
  | nil => cases hmem
  | cons e rest ih =>
    obtain ⟨t0, td0⟩ := e
    simp only [pass1] at hok
    rcases List.mem_cons.1 hmem with heq | hmemr
    · obtain ⟨hT, htd⟩ := Prod.mk.injEq .. ▸ heq
      subst hT
      subst htd
      have hfst : (dictDefaultGet idxs T []).1 = tidx := by
        rw [dictDefaultGet_fst, hidx]
        rfl
      rw [hfst, hpidx] at hok
      dsimp only at hok
      have hni : T ∉ rest.map Prod.fst := (List.nodup_cons.1 hnd).1
      refine pass1_models_preserved rest _ _ _ m T _ hok hni ?_
      rw [dictLookup_insert, if_pos rfl]
    · cases hpi : dictLookup (dictDefaultGet idxs t0 []).1 Index.PRIMARY_INDEX with
      | none =>
        rw [hpi] at hok
        cases hok
      | some pidx0 =>
        rw [hpi] at hok
        dsimp only at hok
        exact ih _ _ _ hmemr (List.nodup_cons.1 hnd).2
          (dictLookup_dget_preserve idxs t0 [] T tidx hidx) hok

/-- Pass 1 registers every table of its work list, with the table name and
the raw interleaved-parent value taken from that table's data. -/
theorem pass1_lookup_basic (entries : List (String × TableData)) (tbls : Dict TableData)
    (idxs : Dict (Dict Index)) (models m : Dict ModelMeta) (T : String) (td : TableData)
    (hmem : (T, td) ∈ entries)
    (hnd : (entries.map Prod.fst).Nodup)
    (hok : (pass1 entries tbls idxs models).1 = .ok m) :
    ∃ meta, dictLookup m T = some meta ∧ meta.table = T ∧
      meta.interleaved = interleavedOfParent td.parent_table := by
  induction entries generalizing tbls idxs models with
  | nil => cases hmem
  | cons e rest ih =>
    obtain ⟨t0, td0⟩ := e
    simp only [pass1] at hok
    cases hpi : dictLookup (dictDefaultGet idxs t0 []).1 Index.PRIMARY_INDEX with
    | none =>
      rw [hpi] at hok
      cases hok
    | some pidx0 =>
      rw [hpi] at hok
      dsimp only at hok
      rcases List.mem_cons.1 hmem with heq | hmemr
      · obtain ⟨hT, htd⟩ := Prod.mk.injEq .. ▸ heq
        subst hT
        subst htd
        have hni : T ∉ rest.map Prod.fst := (List.nodup_cons.1 hnd).1
        refine ⟨{ table := T, fields := markPrimaryKeys td.fields pidx0.columns,
                  interleaved := interleavedOfParent td.parent_table,
                  indexes := (dictDefaultGet idxs T []).1 }, ?_, rfl, rfl⟩
        refine pass1_models_preserved rest _ _ _ m T _ hok hni ?_
        rw [dictLookup_insert, if_pos rfl]
      · exact ih _ _ _ hmemr (List.nodup_cons.1 hnd).2 hok

/-- The key list pass 1 produces: the registry keys already present
followed by the work-list keys, in order. -/
theorem pass1_keys (entries : List (String × TableData)) (tbls : Dict TableData)
    (idxs : Dict (Dict Index)) (models m : Dict ModelMeta)
    (hok : (pass1 entries tbls idxs models).1 = .ok m)
    (hnd : (models.map Prod.fst ++ entries.map Prod.fst).Nodup) :
    m.map Prod.fst = models.map Prod.fst ++ entries.map Prod.fst := by
  induction entries generalizing tbls idxs models with
  | nil =>
    simp only [pass1] at hok
    cases hok
    simp
  | cons e rest ih =>
    obtain ⟨t0, td0⟩ := e
    simp only [pass1] at hok
    cases hpi : dictLookup (dictDefaultGet idxs t0 []).1 Index.PRIMARY_INDEX with
    | none =>
      rw [hpi] at hok
      cases hok
    | some pidx0 =>
      rw [hpi] at hok
      dsimp only at hok
      have hfresh : t0 ∉ models.map Prod.fst := by
        intro hmm
        have hd := (List.nodup_append.1 hnd).2.2
        exact hd hmm (by simp)
      have hkeys := dictInsert_keys_fresh models t0
        { table := t0, fields := markPrimaryKeys td0.fields pidx0.columns,
          interleaved := interleavedOfParent td0.parent_table,
          indexes := (dictDefaultGet idxs t0 []).1 } hfresh
      have hnd' : ((dictInsert models t0
          { table := t0, fields := markPrimaryKeys td0.fields pidx0.columns,
            interleaved := interleavedOfParent td0.parent_table,
            indexes := (dictDefaultGet idxs t0 []).1 }).map Prod.fst ++
          rest.map Prod.fst).Nodup := by
        rw [hkeys, List.append_assoc]
        simpa using hnd
      rw [ih _ _ _ hok hnd', hkeys, List.append_assoc]
      simp

/-- The effect of pass 2 on one registered model: a truthy (non-empty)
interleaved-parent name becomes a direct reference; everything else is left
alone. -/
def resolveMeta (meta : ModelMeta) : ModelMeta :=
  match meta.interleaved with
  | .name s => if s = "" then meta else { meta with interleaved := .ref s }
  | _ => meta

/-- Resolving twice is the same as resolving once. -/
theorem resolveMeta_idem (meta : ModelMeta) :
    resolveMeta (resolveMeta meta) = resolveMeta meta := by
  cases hi : meta.interleaved with
  | name s =>
    by_cases hs : s = ""
    · simp [resolveMeta, hi, hs]
    · simp [resolveMeta, hi, hs]
  | none => simp [resolveMeta, hi]
  | ref t => simp [resolveMeta, hi]

/-- Resolution does not change the field map. -/
theorem resolveMeta_fields (meta : ModelMeta) :
    (resolveMeta meta).fields = meta.fields := by
  cases hi : meta.interleaved with
  | name s =>
    by_cases hs : s = ""
    · simp [resolveMeta, hi, hs]
    · simp [resolveMeta, hi, hs]
  | none => simp [resolveMeta, hi]
  | ref t => simp [resolveMeta, hi]

/-- Resolution of a non-empty parent name yields a reference to it. -/
theorem resolveMeta_interleaved_name (meta : ModelMeta) (s : String)
    (h : meta.interleaved = .name s) (hs : s ≠ "") :
    (resolveMeta meta).interleaved = .ref s := by
  simp [resolveMeta, h, hs]

/-- Pass 2 maps every registered model to its resolved form, provided the
work list is exactly the registry (distinct keys, entries found by lookup,
and keys outside the work list already resolved). -/
theorem pass2_lookup (entries : List (String × ModelMeta)) (models m : Dict ModelMeta)
    (hok : pass2 entries models = .ok m)
    (hnd : (entries.map Prod.fst).Nodup)
    (hco : ∀ kv ∈ entries, dictLookup models kv.1 = some kv.2)
    (hfix : ∀ T meta, dictLookup models T = some meta →
      T ∈ entries.map Prod.fst ∨ resolveMeta meta = meta) :
    ∀ T meta, dictLookup models T = some meta →
      dictLookup m T = some (resolveMeta meta) := by
  induction entries generalizing models with
  | nil =>
    simp only [pass2] at hok
    cases hok
    intro T meta h
    rcases hfix T meta h with hmm | hf
    · cases hmm
    · rw [hf]
      exact h
  | cons e rest ih =>
    obtain ⟨t0, metaE⟩ := e
    have hl0 : dictLookup models t0 = some metaE := hco _ (List.mem_cons_self _ _)
    simp only [pass2] at hok
    have hskip : pass2 rest models = Except.ok m → resolveMeta metaE = metaE →
        ∀ T meta, dictLookup models T = some meta →
          dictLookup m T = some (resolveMeta meta) := by
      intro hok' hfixE
      refine ih models hok' (List.nodup_cons.1 hnd).2
        (fun kv hkv => hco kv (List.mem_cons_of_mem _ hkv)) ?_
      intro T meta h
      rcases hfix T meta h with hmm | hf
      · rcases List.mem_cons.1 hmm with rfl | hr
        · right
          have hme : metaE = meta := Option.some.inj (hl0.symm.trans h)
          rw [← hme]
          exact hfixE
        · exact Or.inl hr
      · exact Or.inr hf
    cases hi : metaE.interleaved with
    | name s =>
      rw [hi] at hok
      dsimp only at hok
      by_cases hs : s = ""
      · rw [if_pos hs] at hok
        exact hskip hok (by simp [resolveMeta, hi, hs])
      · rw [if_neg hs] at hok
        cases hls : dictLookup models s with
        | none =>
          rw [hls] at hok
          cases hok
        | some mp =>
          rw [hls] at hok
          have hco' : ∀ kv ∈ rest,
              dictLookup (dictInsert models t0 { metaE with interleaved := .ref s }) kv.1
                = some kv.2 := by
            intro kv hkv
            have hne : ¬ t0 = kv.1 := by
              intro hek
              have : kv.1 ∈ rest.map Prod.fst := List.mem_map_of_mem Prod.fst hkv
              rw [← hek] at this
              exact (List.nodup_cons.1 hnd).1 this
            rw [dictLookup_insert, if_neg hne]
            exact hco kv (List.mem_cons_of_mem _ hkv)
          have hfix' : ∀ T meta,
              dictLookup (dictInsert models t0 { metaE with interleaved := .ref s }) T
                = some meta →
              T ∈ rest.map Prod.fst ∨ resolveMeta meta = meta := by
            intro T meta h
            rw [dictLookup_insert] at h
            by_cases ht : t0 = T
            · rw [if_pos ht] at h
              right
              rw [← Option.some.inj h]
              rfl
            · rw [if_neg ht] at h
              rcases hfix T meta h with hmm | hf
              · rcases List.mem_cons.1 hmm with rfl | hr
                · exact absurd rfl ht
                · exact Or.inl hr
              · exact Or.inr hf
          have hres := ih _ hok (List.nodup_cons.1 hnd).2 hco' hfix'
          intro T meta h
          by_cases ht : t0 = T
          · subst ht
            have hmE : meta = metaE := (Option.some.inj (hl0.symm.trans h)).symm
            subst hmE
            have hl1 : dictLookup (dictInsert models t0 { meta with interleaved := .ref s }) t0
                = some { meta with interleaved := .ref s } := by
              rw [dictLookup_insert, if_pos rfl]
            have := hres t0 _ hl1
            rw [show resolveMeta { meta with interleaved := .ref s }
                = { meta with interleaved := .ref s } from rfl] at this
            rw [show resolveMeta meta = { meta with interleaved := .ref s } by
              simp [resolveMeta, hi, hs]]
            exact this
          · have hl1 : dictLookup (dictInsert models t0 { metaE with interleaved := .ref s }) T
                = some meta := by
              rw [dictLookup_insert, if_neg ht]
              exact h
            exact hres T meta hl1
    | none =>
      rw [hi] at hok
      dsimp only at hok
      exact hskip hok (by simp [resolveMeta, hi])
    | ref t =>
      rw [hi] at hok
      dsimp only at hok
      exact hskip hok (by simp [resolveMeta, hi])

/-- A successful lookup means the key is among the dict's keys. -/
theorem dictLookup_mem_keys {α : Type} (d : Dict α) (k : String) (v : α)
    (h : dictLookup d k = some v) : k ∈ d.map Prod.fst := by
  induction d with
  | nil => cases h
  | cons e rest ih =>
    by_cases he : e.1 = k
    · rw [← he]
      exact List.mem_map_of_mem Prod.fst (List.mem_cons_self _ _)
    · simp only [dictLookup, if_neg he] at h
      exact List.mem_cons_of_mem _ (ih h)

/-- The full two-pass build registers, for a table with a primary index,
the resolved form of its pass-1 metadata. -/
theorem modelsCompute_lookup (tbls : Dict TableData) (idxs : Dict (Dict Index))
    (m : Dict ModelMeta) (T : String) (td : TableData) (tidx : Dict Index) (pidx : Index)
    (hnd : (tbls.map Prod.fst).Nodup)
    (hmem : (T, td) ∈ tbls)
    (hidx : dictLookup idxs T = some tidx)
    (hpidx : dictLookup tidx Index.PRIMARY_INDEX = some pidx)
    (hok : (modelsCompute tbls idxs).1 = .ok m) :
    dictLookup m T = some (resolveMeta
      { table := T, fields := markPrimaryKeys td.fields pidx.columns,
        interleaved := interleavedOfParent td.parent_table, indexes := tidx }) := by
  unfold modelsCompute at hok
  dsimp only at hok
  cases h1 : (pass1 tbls tbls idxs []).1 with
  | error e =>
    rw [h1] at hok
    cases hok
  | ok m1 =>
    rw [h1] at hok
    dsimp only at hok
    cases h2 : pass2 m1 m1 with
    | error e =>
      rw [h2] at hok
      cases hok
    | ok m2 =>
      rw [h2] at hok
      cases hok
      have hmeta1 := pass1_lookup_char tbls tbls idxs [] m1 T td tidx pidx
        hmem hnd hidx hpidx h1
      have hkeys := pass1_keys tbls tbls idxs [] m1 h1 (by simpa using hnd)
      have hnd1 : (m1.map Prod.fst).Nodup := by
        rw [hkeys]
        simpa using hnd
      exact pass2_lookup m1 m1 _ h2 hnd1 (dictLookup_coherent m1 hnd1)
        (fun T' meta h => Or.inl (dictLookup_mem_keys m1 T' meta h)) T _ hmeta1

/-- The full two-pass build registers every table, with its raw
interleaved-parent value resolved. -/
theorem modelsCompute_lookup_basic (tbls : Dict TableData) (idxs : Dict (Dict Index))
    (m : Dict ModelMeta) (T : String) (td : TableData)
    (hnd : (tbls.map Prod.fst).Nodup)
    (hmem : (T, td) ∈ tbls)
    (hok : (modelsCompute tbls idxs).1 = .ok m) :
    ∃ meta, dictLookup m T = some (resolveMeta meta) ∧ meta.table = T ∧
      meta.interleaved = interleavedOfParent td.parent_table := by
  unfold modelsCompute at hok
  dsimp only at hok
  cases h1 : (pass1 tbls tbls idxs []).1 with
  | error e =>
    rw [h1] at hok
    cases hok
  | ok m1 =>
    rw [h1] at hok
    dsimp only at hok
    cases h2 : pass2 m1 m1 with
    | error e =>
      rw [h2] at hok
      cases hok
    | ok m2 =>
      rw [h2] at hok
      cases hok
      obtain ⟨meta, hl, hta, hil⟩ := pass1_lookup_basic tbls tbls idxs [] m1 T td hmem hnd h1
      have hkeys := pass1_keys tbls tbls idxs [] m1 h1 (by simpa using hnd)
      have hnd1 : (m1.map Prod.fst).Nodup := by
        rw [hkeys]
        simpa using hnd
      refine ⟨meta, ?_, hta, hil⟩
      exact pass2_lookup m1 m1 _ h2 hnd1 (dictLookup_coherent m1 hnd1)
        (fun T' meta' h => Or.inl (dictLookup_mem_keys m1 T' meta' h)) T meta hl

/-- Claim C1: after a successful `models()` build, every field of a table's
model descriptor has `primary_key` equal to membership of its name in the
key-column set of the table's `PRIMARY_INDEX`, regardless of the value the
field was constructed with. -/
theorem models_primary_key_from_primary_index (tbls : Dict TableData)
    (idxs : Dict (Dict Index)) (m : Dict ModelMeta) (T : String) (td : TableData)
    (tidx : Dict Index) (pidx : Index)
    (hnd : (tbls.map Prod.fst).Nodup)
    (hmem : (T, td) ∈ tbls)
    (hidx : dictLookup idxs T = some tidx)
    (hpidx : dictLookup tidx Index.PRIMARY_INDEX = some pidx)
    (hok : (modelsCompute tbls idxs).1 = .ok m) :
    ∃ meta, dictLookup m T = some meta ∧
      ∀ kv ∈ meta.fields, kv.2.primary_key = pyNameIn kv.2.name pidx.columns := by
  refine ⟨_, modelsCompute_lookup tbls idxs m T td tidx pidx hnd hmem hidx hpidx hok, ?_⟩
  intro kv hkv
  rw [resolveMeta_fields] at hkv
  obtain ⟨kv0, hkv0, rfl⟩ := List.mem_map.1 hkv
  rfl

/-- Claim C2: after a successful `models()` build, a table `B` whose catalog
row declares parent `A` (with `A` also a catalog table) has its
`interleaved` attribute resolved to a direct reference to the registered
parent descriptor — the registry entry at key `A`, which stands for Python
object identity of the parent model class — and this holds for any order of
the table rows. -/
theorem models_interleaved_resolved_to_parent (tbls : Dict TableData)
    (idxs : Dict (Dict Index)) (m : Dict ModelMeta) (A B : String) (tdA tdB : TableData)
    (hnd : (tbls.map Prod.fst).Nodup)
    (hA : (A, tdA) ∈ tbls)
    (hB : (B, tdB) ∈ tbls)
    (hpar : tdB.parent_table = some A)
    (hAne : A ≠ "")
    (hok : (modelsCompute tbls idxs).1 = .ok m) :
    ∃ mB, dictLookup m B = some mB ∧ mB.interleaved = Interleaved.ref A ∧
      ∃ mA, dictLookup m A = some mA := by
  obtain ⟨metaB, hlB, _, hiB⟩ := modelsCompute_lookup_basic tbls idxs m B tdB hnd hB hok
  obtain ⟨metaA, hlA, _, _⟩ := modelsCompute_lookup_basic tbls idxs m A tdA hnd hA hok
  refine ⟨resolveMeta metaB, hlB, ?_, resolveMeta metaA, hlA⟩
  have hname : metaB.interleaved = .name A := by
    rw [hiB, hpar]
    rfl
  exact resolveMeta_interleaved_name metaB A hname hAne

/-- The primary index object used by the C1 and C2 witnesses. -/
def idxObjW : Index :=
  { columns := ["id"], name := Index.PRIMARY_INDEX, parent := Option.none,
    null_filtered := false, unique := false, storing_columns := [] }

/-- Witness tables for C1: one table `A` with one field `id`. -/
def tblsW : Dict TableData :=
  [("A", { parent_table := Option.none, fields := [("id", fieldIdBefore)] })]

/-- Witness indexes for C1. -/
def idxsW : Dict (Dict Index) := [("A", [(Index.PRIMARY_INDEX, idxObjW)])]

/-- The model registry `modelsCompute` produces for the C1 witness. -/
def mW : Dict ModelMeta :=
  [("A", { table := "A", fields := [("id", fieldIdAfter)], interleaved := Interleaved.none,
           indexes := [(Index.PRIMARY_INDEX, idxObjW)] })]

/-- Witness for C1 at a concrete one-table catalog. -/
theorem models_primary_key_from_primary_index_witness :
    ∃ meta, dictLookup mW "A" = some meta ∧
      ∀ kv ∈ meta.fields, kv.2.primary_key = pyNameIn kv.2.name idxObjW.columns :=
  models_primary_key_from_primary_index tblsW idxsW mW "A"
    { parent_table := Option.none, fields := [("id", fieldIdBefore)] }
    [(Index.PRIMARY_INDEX, idxObjW)] idxObjW (by decide) (by decide) rfl rfl rfl

/-- Witness tables for C2: parent `A`, then child `B` declaring parent `A`. -/
def tbls2W : Dict TableData :=
  [("A", { parent_table := Option.none, fields := [] }),
   ("B", { parent_table := some "A", fields := [] })]

/-- Witness indexes for C2: both tables share a primary index shape. -/
def idxs2W : Dict (Dict Index) :=
  [("A", [(Index.PRIMARY_INDEX, idxObjW)]), ("B", [(Index.PRIMARY_INDEX, idxObjW)])]

/-- The model registry `modelsCompute` produces for the C2 witness. -/
def m2W : Dict ModelMeta :=
  [("A", { table := "A", fields := [], interleaved := Interleaved.none,
           indexes := [(Index.PRIMARY_INDEX, idxObjW)] }),
   ("B", { table := "B", fields := [], interleaved := Interleaved.ref "A",
           indexes := [(Index.PRIMARY_INDEX, idxObjW)] })]

/-- Witness for C2 at a concrete two-table catalog. -/
theorem models_interleaved_resolved_to_parent_witness :
    ∃ mB, dictLookup m2W "B" = some mB ∧ mB.interleaved = Interleaved.ref "A" ∧
      ∃ mA, dictLookup m2W "A" = some mA :=
  models_interleaved_resolved_to_parent tbls2W idxs2W m2W "A" "B"
    { parent_table := Option.none, fields := [] }
    { parent_table := some "A", fields := [] }
    (by decide) (by decide) (by decide) rfl (by decide) rfl

end SpannerOrm
